import Mathlib

/-!
Shallow embedding of the lyrics-provider core of ianz56/cli:
two providers that fetch, match and convert timed lyrics.

* `ProviderIanz56` embeds src/CustomApps/lyrics-plus/ProviderIanz56.js
  (Shape B payloads: `{ lines: [{ begin, end, text, translation?, words, backgroundVocal? }] }`,
  word times given in seconds — modelled as rationals, exact for JS number
  literals used here).
* `ProviderApple` embeds src/unnamed/part_000
  (Shape A payloads: `{ content: [{ timestamp, endtime, text: [...], backgroundText? }] }`,
  word times given in integer milliseconds).

External fetches (index fetch, song search, payload fetch) are collaborators:
their outcomes are passed to `findLyrics` as explicit arguments; a JS
exception caught by `findLyrics`'s try/catch corresponds to a dedicated
outcome constructor.
-/

set_option linter.unusedVariables false

/-- JS `Math.round`: floor of x + 1/2 (rounds half up). -/
def jsRound (q : ℚ) : Int := ⌊q + 1/2⌋

/-- The JS regex class `\w` (no unicode flag): `[A-Za-z0-9_]`. -/
def isWordChar (c : Char) : Bool :=
  decide ((65 ≤ c.toNat ∧ c.toNat ≤ 90) ∨ (97 ≤ c.toNat ∧ c.toNat ≤ 122) ∨
    (48 ≤ c.toNat ∧ c.toNat ≤ 57) ∨ c.toNat = 95)

/-- The JS regex class `\s` and the whitespace set of `String.prototype.trim`. -/
def isJsSpace (c : Char) : Bool :=
  decide (c.toNat = 32 ∨ (9 ≤ c.toNat ∧ c.toNat ≤ 13) ∨ c.toNat = 160 ∨
    c.toNat = 0x1680 ∨ (0x2000 ≤ c.toNat ∧ c.toNat ≤ 0x200a) ∨ c.toNat = 0x2028 ∨
    c.toNat = 0x2029 ∨ c.toNat = 0x202f ∨ c.toNat = 0x205f ∨ c.toNat = 0x3000 ∨
    c.toNat = 0xfeff)

/-- Combining diacritical marks, the JS regex range `[̀-ͯ]`. -/
def isCombiningMark (c : Char) : Bool := decide (0x300 ≤ c.toNat ∧ c.toNat ≤ 0x36f)

/-- Model of `String.prototype.toLowerCase` at character level, covering ASCII
`A-Z` and the Latin-1 uppercase letters (U+00C0..U+00DE minus the multiplication
sign), which both lower-case by adding 32.  Other characters are returned
unchanged. -/
def jsToLower (c : Char) : Char :=
  if 65 ≤ c.toNat ∧ c.toNat ≤ 90 then Char.ofNat (c.toNat + 32)
  else if (0xc0 ≤ c.toNat ∧ c.toNat ≤ 0xde) ∧ c.toNat ≠ 0xd7 then Char.ofNat (c.toNat + 32)
  else c

/-- Canonical (NFD) decompositions of the precomposed Latin-1 lowercase letters:
base letter followed by a combining mark in U+0300..U+036F. -/
def nfdTable : List (Char × List Char) :=
  [('à', ['a', '\u0300']), ('á', ['a', '\u0301']), ('â', ['a', '\u0302']),
   ('ã', ['a', '\u0303']), ('ä', ['a', '\u0308']), ('å', ['a', '\u030a']),
   ('è', ['e', '\u0300']), ('é', ['e', '\u0301']), ('ê', ['e', '\u0302']),
   ('ë', ['e', '\u0308']),
   ('ì', ['i', '\u0300']), ('í', ['i', '\u0301']), ('î', ['i', '\u0302']),
   ('ï', ['i', '\u0308']),
   ('ò', ['o', '\u0300']), ('ó', ['o', '\u0301']), ('ô', ['o', '\u0302']),
   ('õ', ['o', '\u0303']), ('ö', ['o', '\u0308']),
   ('ù', ['u', '\u0300']), ('ú', ['u', '\u0301']), ('û', ['u', '\u0302']),
   ('ü', ['u', '\u0308']),
   ('ñ', ['n', '\u0303']), ('ç', ['c', '\u0327']), ('ý', ['y', '\u0301'])]

/-- Model of `String.prototype.normalize("NFD")` at character level: decompose
the Latin-1 letters of `nfdTable`, leave every other character alone. -/
def nfdChar (c : Char) : List Char := (nfdTable.lookup c).getD [c]

/-- One pass of the JS replacement `\s+` → `" "`: every maximal run of
whitespace characters becomes a single ASCII space. -/
def collapseWs : List Char → List Char
  | [] => []
  | [c] => [if isJsSpace c then ' ' else c]
  | c :: d :: cs =>
    if isJsSpace c && isJsSpace d then collapseWs (d :: cs)
    else (if isJsSpace c then ' ' else c) :: collapseWs (d :: cs)

/-- Remove the maximal whitespace suffix (the tail half of `String.trim`). -/
def dropTrailingWs : List Char → List Char
  | [] => []
  | c :: cs =>
    let r := dropTrailingWs cs
    if r.isEmpty then (if isJsSpace c then [] else [c]) else c :: r

/-- JS `String.prototype.trim` on a character list. -/
def jsTrimList (l : List Char) : List Char := dropTrailingWs (l.dropWhile isJsSpace)

/-- JS `String.prototype.trim`. -/
def jsTrim (s : String) : String := ⟨jsTrimList s.data⟩

/-- Does the character list start with the given segment? -/
def startsWithSeg : List Char → List Char → Bool
  | _, [] => true
  | [], _ :: _ => false
  | c :: cs, d :: ds => c == d && startsWithSeg cs ds

/-- Does the character list contain the given contiguous segment?  Model of
JS `String.prototype.includes` at character level. -/
def containsSeg : List Char → List Char → Bool
  | [], sub => sub.isEmpty
  | c :: cs, sub => startsWithSeg (c :: cs) sub || containsSeg cs sub

/-- JS `a.includes(b)`. -/
def strIncludes (a b : String) : Bool := containsSeg a.data b.data

namespace ProviderIanz56

/-- The full `normalize` pipeline of ProviderIanz56.js on a character list:
lower-case, NFD-decompose, strip combining marks, strip characters outside
`[\w\s]`, collapse whitespace runs to single spaces, trim. -/
def normalizeList (l : List Char) : List Char :=
  jsTrimList (collapseWs
    ((((l.map jsToLower).flatMap nfdChar).filter (fun c => !isCombiningMark c)).filter
      (fun c => isWordChar c || isJsSpace c)))

/-- `normalize(s)` of ProviderIanz56.js.  An absent/empty input yields `""`
(the JS early return `if (!s) return ""` agrees with running the pipeline on
the empty string). -/
def normalize (s : String) : String := ⟨normalizeList s.data⟩

/-- One entry of the provider's `index.json`.  `""` models an absent or empty
field (the JS code only tests these fields for falsiness or normalizes them,
and `normalize` sends absent values to `""`). -/
structure IndexEntry where
  artist : String
  title : String
  jsonPath : String
deriving DecidableEq

/-- Tier-1 predicate of `findMatch`: exact normalized artist and title match.
`na`/`nt` are the already-normalized query artist and title. -/
def exactPred (na nt : String) (e : IndexEntry) : Bool :=
  normalize e.artist == na && normalize e.title == nt

/-- Tier-2 predicate of `findMatch`: entry artist non-empty, artists contain
one another in some direction, and likewise the titles. -/
def partialPred (na nt : String) (e : IndexEntry) : Bool :=
  let entryArtist := normalize e.artist
  let entryTitle := normalize e.title
  !entryArtist.isEmpty &&
    (strIncludes entryArtist na || strIncludes na entryArtist) &&
    (strIncludes entryTitle nt || strIncludes nt entryTitle)

/-- Tier-3 predicate of `findMatch` (title-only fallback): if the entry's
normalized artist is empty, accept title equality or containment either way;
otherwise require exact title equality. -/
def titleFallbackPred (nt : String) (e : IndexEntry) : Bool :=
  let entryArtist := normalize e.artist
  let entryTitle := normalize e.title
  if entryArtist.isEmpty then
    entryTitle == nt || strIncludes entryTitle nt || strIncludes nt entryTitle
  else entryTitle == nt

/-- `findMatch(artist, title, index)`: try the exact tier, then the partial
tier, then the title-only fallback tier; first entry in index order wins
within a tier. -/
def findMatch (artist title : String) (index : List IndexEntry) : Option IndexEntry :=
  match index.find? (exactPred (normalize artist) (normalize title)) with
  | some m => some m
  | none =>
    match index.find? (partialPred (normalize artist) (normalize title)) with
    | some m => some m
    | none => index.find? (titleFallbackPred (normalize title))

/-- One element of a line's `words` (or `backgroundVocal.words`) array of a
Shape B payload.  Times are in seconds.  `isBackground` is the raw word's own
flag read by the `isMainBackground` computation. -/
structure BWord where
  text : String
  «begin» : ℚ
  «end» : ℚ
  hasSpaceAfter : Bool
  isBackground : Bool
deriving DecidableEq

/-- A karaoke word token produced by `processWords`:
`{ word, time (duration in ms), isBackground }`. -/
structure BTok where
  word : String
  time : Int
  isBackground : Bool
deriving DecidableEq

/-- The sanitization `wordText.replace(/^[(]+|[)]+$/g, "")`: remove the
leading run of `(` and the trailing run of `)`. -/
def stripParens (s : String) : String :=
  ⟨((s.data.dropWhile (fun c => c == '(')).reverse.dropWhile (fun c => c == ')')).reverse⟩

/-- `processWords(words, lineStartTime, isBackground)` of
`convertToKaraokeFormat`: walk the words with a running cursor `currentTime`
(seconds); when a word starts more than the 10 ms tolerance after the cursor,
push a zero-text spacer covering the gap; then push the word itself (background
text paren-stripped, a space appended when `hasSpaceAfter` and the word is not
the last, i.e. `i < words.length - 1` in the JS loop — here: the tail is
nonempty), durations converted to rounded milliseconds; advance the cursor to
the word's end. -/
def processWords : List BWord → ℚ → Bool → List BTok
  | [], _, _ => []
  | w :: ws, currentTime, isBackground =>
    let gap : List BTok :=
      if w.«begin» > currentTime + 1/100 then
        [{ word := "", time := jsRound ((w.«begin» - currentTime) * 1000),
           isBackground := isBackground }]
      else []
    let wordText := if isBackground then stripParens w.text else w.text
    let wordText := if w.hasSpaceAfter && !ws.isEmpty then wordText ++ " " else wordText
    gap ++ { word := wordText, time := jsRound ((w.«end» - w.«begin») * 1000),
             isBackground := isBackground } :: processWords ws w.«end» isBackground

/-- One element of `lyricsJson.lines` of a Shape B payload.  `translation = ""`
models an absent translation (the JS code only uses it through `||` chains and
a truthiness test), `text = ""` an absent plain text, `words = []` an absent
words array (used only through `line.words || []`), and `backgroundVocal = []`
an absent or empty `line.backgroundVocal?.words` (used only through existence
plus length checks). -/
structure BLine where
  «begin» : ℚ
  «end» : ℚ
  text : String
  translation : String
  words : List BWord
  backgroundVocal : List BWord
deriving DecidableEq

/-- A Shape B payload as consumed by `convertToKaraokeFormat`; `lines = []`
models an absent `lines` field (`lyricsJson.lines || []`). -/
structure ShapeB where
  lines : List BLine
deriving DecidableEq

/-- A karaoke cue pushed by `convertToKaraokeFormat`.  `background = none`
models the `undefined` assigned when the processed background track is empty. -/
structure BCue where
  startTime : Int
  endTime : Int
  text : List BTok
  isBackground : Bool
  background : Option (List BTok)
  originalText : String
deriving DecidableEq

/-- A synced line pushed by `convertToKaraokeFormat`. -/
structure BSynced where
  startTime : Int
  endTime : Int
  text : String
  originalText : String
  background : List BTok
deriving DecidableEq

/-- `bgStart` of the per-line loop: the first background word's begin when the
background track is nonempty, otherwise the main start. -/
def bgStartOf (line : BLine) : ℚ :=
  match line.backgroundVocal with
  | [] => line.«begin»
  | w :: _ => w.«begin»

/-- `lineStartTime = Math.min(mainStart, bgStart)` of the per-line loop. -/
def lineStartOf (line : BLine) : ℚ := min line.«begin» (bgStartOf line)

/-- `lineEndTime`: the line's own end, raised to the last background word's end
when a background track exists. -/
def lineEndOf (line : BLine) : ℚ :=
  match line.backgroundVocal.getLast? with
  | none => line.«end»
  | some w => max line.«end» w.«end»

/-- The karaoke cue built for one line by `convertToKaraokeFormat`.  Note the
JS also computes `backgroundStartTime = bgWords[0].begin * 1000` but never uses
it; both `processWords` calls are seeded with `lineStartTime`. -/
def mkKaraokeCue (line : BLine) : BCue :=
  let lineStartTime := lineStartOf line
  let mainWords := processWords line.words lineStartTime false
  let backgroundWords := processWords line.backgroundVocal lineStartTime true
  { startTime := jsRound (lineStartTime * 1000)
    endTime := jsRound (lineEndOf line * 1000)
    text := mainWords
    isBackground := !line.words.isEmpty && line.words.all (·.isBackground)
    background := if backgroundWords.length > 0 then some backgroundWords else none
    originalText := line.translation }

/-- The synced line built for one line by `convertToKaraokeFormat`:
`text = line.translation || line.text || ""`,
`originalText = line.translation ? (line.text || "") : ""`. -/
def mkSyncedLine (line : BLine) : BSynced :=
  let lineStartTime := lineStartOf line
  { startTime := jsRound (lineStartTime * 1000)
    endTime := jsRound (lineEndOf line * 1000)
    text := if line.translation ≠ "" then line.translation else line.text
    originalText := if line.translation ≠ "" then line.text else ""
    background := processWords line.backgroundVocal lineStartTime true }

/-- `convertToKaraokeFormat(lyricsJson)`: build one karaoke cue and one synced
line per input line, then sort both arrays by `startTime` (the JS
`sort((a, b) => a.startTime - b.startTime)`, modelled by a stable sort on the
same key). -/
def convertToKaraokeFormat (lyricsJson : ShapeB) : List BCue × List BSynced :=
  (List.insertionSort (fun a b => a.startTime ≤ b.startTime)
      (lyricsJson.lines.map mkKaraokeCue),
   List.insertionSort (fun a b => a.startTime ≤ b.startTime)
      (lyricsJson.lines.map mkSyncedLine))

/-- The track info passed to `findLyrics`. -/
structure TrackInfo where
  uri : String
  title : String
  artist : String
deriving DecidableEq

/-- Outcome of `fetchIndex()` (a collaborator): the fetch either throws —
caught by `findLyrics`'s try/catch — or yields the index array. -/
inductive IndexFetch
  | fail
  | ok (index : List IndexEntry)
deriving DecidableEq

/-- Outcome of `fetchLyricsJson(jsonPath)` (a collaborator): the fetch throws;
or it yields JSON on which the conversion itself throws (a truthy non-array
`lines`), which the same try/catch turns into the error result; or it yields a
well-formed Shape B payload. -/
inductive PayloadFetch
  | fail
  | malformed
  | ok (lyricsJson : ShapeB)
deriving DecidableEq

/-- The result object of ProviderIanz56's `findLyrics`.  The JS assigns
`result.unsynced = result.synced`, so both fields hold synced lines. -/
structure ResultB where
  uri : String
  provider : String
  karaoke : Option (List BCue)
  synced : Option (List BSynced)
  unsynced : Option (List BSynced)
  copyright : Option String
  error : Option String
deriving DecidableEq

/-- `findLyrics(info)` of ProviderIanz56.js.  Every throw inside the `try`
block (index fetch failure, no match, missing `jsonPath`, payload fetch
failure, conversion failure) is caught by the single catch, which sets the one
error string and returns the otherwise untouched result object. -/
def findLyrics (info : TrackInfo) (indexRes : IndexFetch) (payloadRes : PayloadFetch) :
    ResultB :=
  let result : ResultB :=
    { uri := info.uri, provider := "ianz56", karaoke := none, synced := none,
      unsynced := none, copyright := none, error := none }
  let failed : ResultB := { result with error := some "Request error or lyrics not found" }
  match indexRes with
  | .fail => failed
  | .ok index =>
    match findMatch info.artist info.title index with
    | none => failed
    | some m =>
      if m.jsonPath == "" then failed
      else
        match payloadRes with
        | .fail => failed
        | .malformed => failed
        | .ok lyricsJson =>
          let p := convertToKaraokeFormat lyricsJson
          let karaoke := p.1
          let synced := p.2
          { result with
            karaoke := if karaoke.length > 0 then some karaoke else none
            synced := if synced.length > 0 then some synced else none
            unsynced := if synced.length > 0 then some synced else none }

end ProviderIanz56

namespace ProviderApple

/-- One element of a line's `text` (or `backgroundText`) array of a Shape A
payload.  Times are integer milliseconds.  `part` records the truthiness of
the optional `part` field (`hasSpaceAfter = !w.part`); `text = ""` models an
absent text (`w.text || ""`). -/
structure AWord where
  text : String
  timestamp : Int
  endtime : Int
  duration : Int
  part : Bool
deriving DecidableEq

/-- One element of `lyricsJson.content`.  `text = []` models an absent word
array (`line.text || []`); `backgroundText = []` an absent, non-array-checked
or empty `backgroundText` (the JS guards combine to a length test). -/
structure ALine where
  timestamp : Int
  endtime : Int
  text : List AWord
  backgroundText : List AWord
deriving DecidableEq

/-- A Shape A payload: top-level `type` (absent modelled as `none`) and
`content`.  `content = none` models a falsy `content`; `content = some []`
is a present-but-empty array (truthy in JS). -/
structure LyricsData where
  type : Option String
  content : Option (List ALine)
deriving DecidableEq

/-- A karaoke word token produced by this provider's `processWords`: it also
records the token's absolute `startTime`. -/
structure ATok where
  word : String
  time : Int
  isBackground : Bool
  startTime : Int
deriving DecidableEq

/-- A karaoke cue pushed by `parseJSON`. -/
structure ACue where
  startTime : Int
  endTime : Int
  text : List ATok
  isBackground : Bool
  background : Option (List ATok)
deriving DecidableEq

/-- A synced line pushed by `parseJSON`. -/
structure ASynced where
  startTime : Int
  endTime : Int
  text : String
  background : List ATok
deriving DecidableEq

/-- An unsynced line pushed by `parseJSON`. -/
structure AUnsynced where
  text : String
deriving DecidableEq

/-- `processWords(rawWords, lineStartTime, isBackground)` of `parseJSON`:
walk the raw words with a running cursor `currentTime` (ms); when a word's
`timestamp` exceeds the cursor by more than the 10 ms tolerance, push a
zero-text spacer covering the gap; then push the word itself (text plus a
trailing space unless `part` is set), with `time = w.duration`; advance the
cursor to `w.endtime`.  Note: no paren stripping happens here, and the
trailing space is appended regardless of position. -/
def processWords : List AWord → Int → Bool → List ATok
  | [], _, _ => []
  | w :: ws, currentTime, isBackground =>
    let gap : List ATok :=
      if w.timestamp > currentTime + 10 then
        [{ word := "", time := w.timestamp - currentTime,
           isBackground := isBackground, startTime := currentTime }]
      else []
    let hasSpaceAfter := !w.part
    let cleanWord := w.text ++ (if hasSpaceAfter then " " else "")
    gap ++ { word := cleanWord, time := w.duration, startTime := w.timestamp,
             isBackground := isBackground } :: processWords ws w.endtime isBackground

/-- One mapped element of the plain-text computation
`w.text + (!w.part ? " " : "")`. -/
def wordPlain (w : AWord) : String := w.text ++ (if !w.part then " " else "")

/-- `(words).map(...).join("").trim()` — the plain text of a word array. -/
def joinedText (ws : List AWord) : String := jsTrim (String.join (ws.map wordPlain))

/-- The `valText` of one line: main plain text, with the background plain text
appended parenthetically when non-empty. -/
def valTextOf (line : ALine) : String :=
  let mainTextStr := joinedText line.text
  let bgTextStr := joinedText line.backgroundText
  mainTextStr ++ (if bgTextStr ≠ "" then " (" ++ bgTextStr ++ ")" else "")

/-- The karaoke cue built for one line by `parseJSON`. -/
def mkACue (line : ALine) : ACue :=
  let mainWords := processWords line.text line.timestamp false
  let backgroundWords := processWords line.backgroundText line.timestamp true
  { startTime := line.timestamp
    endTime := line.endtime
    text := mainWords
    isBackground := false
    background := if backgroundWords.length > 0 then some backgroundWords else none }

/-- The synced line built for one line by `parseJSON`. -/
def mkASynced (line : ALine) : ASynced :=
  { startTime := line.timestamp
    endTime := line.endtime
    text := joinedText line.text
    background := processWords line.backgroundText line.timestamp true }

/-- `parseJSON(lyricsJson)`: per line, push a karaoke cue and a synced line
unless the payload's `type` is the string `"None"`, and push the combined
plain text to `unsynced` when it is non-empty.  The pushes are per-line in one
loop; the `type` guard does not vary across the loop, so the three output
arrays are a map / a map / a filterMap over the lines.  A falsy `content`
takes the early return (whose object carries no `unsynced`, read back as
undefined-empty by the caller). -/
def parseJSON (lyricsJson : LyricsData) : List ACue × List ASynced × List AUnsynced :=
  match lyricsJson.content with
  | none => ([], [], [])
  | some lines =>
    ((if lyricsJson.type ≠ some "None" then lines.map mkACue else []),
     (if lyricsJson.type ≠ some "None" then lines.map mkASynced else []),
     lines.filterMap (fun line =>
       if valTextOf line ≠ "" then some ⟨valTextOf line⟩ else none))

/-- The song info assembled by `getSongInfo` from the search response;
`findLyrics` only branches on the truthiness of `appleID` (`""` models a falsy
id, which cannot arise from `trackId.toString()` but is checked anyway). -/
structure SongInfo where
  songName : String
  artistName : String
  appleID : String
  albumName : String
  artworkUrl : String
deriving DecidableEq

/-- Outcome of `getSyncedLyrics(id)` (a collaborator): `fail` models the
`null` returns (fetch failed, empty or unparseable response); `malformed`
models a truthy `content` that is not an array, on which `parseJSON`'s
`forEach` throws — caught by `findLyrics`'s try/catch; `ok` is a well-formed
payload. -/
inductive LyricsFetch
  | fail
  | malformed
  | ok (lyricsData : LyricsData)
deriving DecidableEq

/-- The result object of ProviderApple's `findLyrics`.  The JS field
`result.unsynced` holds either the parsed unsynced array or (as fallback) the
very synced array stored in `result.synced`; the sum type records which. -/
structure ResultA where
  uri : String
  provider : String
  karaoke : Option (List ACue)
  synced : Option (List ASynced)
  unsynced : Option (List AUnsynced ⊕ List ASynced)
  copyright : Option String
  error : Option String
deriving DecidableEq

/-- `findLyrics(info)` of ProviderApple: search (collaborator outcome
`songRes`), fetch lyrics (collaborator outcome `lyricsRes`), parse, and map
every failure to a fully formed result with an error string. -/
def findLyrics (info : ProviderIanz56.TrackInfo) (songRes : Option SongInfo)
    (lyricsRes : LyricsFetch) : ResultA :=
  let result : ResultA :=
    { uri := info.uri, provider := "Apple Music", karaoke := none, synced := none,
      unsynced := none, copyright := none, error := none }
  match songRes with
  | none => { result with error := some "Song not found" }
  | some songInfo =>
    if songInfo.appleID == "" then { result with error := some "Song not found" }
    else
      match lyricsRes with
      | .fail => { result with error := some "No lyrics found" }
      | .malformed => { result with error := some "Request error" }
      | .ok lyricsData =>
        match lyricsData.content with
        | none => { result with error := some "Invalid lyrics format" }
        | some _ =>
          let p := parseJSON lyricsData
          let karaoke := p.1
          let synced := p.2.1
          let unsynced := p.2.2
          if karaoke.length = 0 ∧ synced.length = 0 ∧ unsynced.length = 0 then
            { result with error := some "Empty lyrics" }
          else
            { result with
              karaoke := if karaoke.length > 0 then some karaoke else none
              synced := if synced.length > 0 then some synced else none
              unsynced :=
                if unsynced.length > 0 then some (Sum.inl unsynced)
                else if synced.length > 0 then some (Sum.inr synced) else none }

end ProviderApple

/-- A character that can appear in `normalize` output: a non-uppercase ASCII
word character, or a single space. -/
def okChar (c : Char) : Prop :=
  (isWordChar c = true ∧ ¬(65 ≤ c.toNat ∧ c.toNat ≤ 90)) ∨ c = ' '

/-- The invariant of `normalize` output: only lowercase word characters and
single separating spaces, no leading or trailing space. -/
def CanonList (l : List Char) : Prop :=
  (∀ c ∈ l, okChar c) ∧
  l.Chain' (fun a b => ¬(isJsSpace a = true ∧ isJsSpace b = true)) ∧
  (∀ c, l.head? = some c → isJsSpace c = false) ∧
  (∀ c, l.getLast? = some c → isJsSpace c = false)

/-! ### Character-level lemmas for the `normalize` pipeline -/

theorem char_toNat_ofNat_of_lt (n : Nat) (h : n < 55296) : (Char.ofNat n).toNat = n := by
  unfold Char.ofNat
  rw [dif_pos (Or.inl h)]
  rfl

theorem okChar_toNat {c : Char} (h : okChar c) :
    (97 ≤ c.toNat ∧ c.toNat ≤ 122) ∨ (48 ≤ c.toNat ∧ c.toNat ≤ 57) ∨ c.toNat = 95 ∨
      c.toNat = 32 := by
  rcases h with ⟨hw, hu⟩ | rfl
  · simp [isWordChar] at hw
    omega
  · right; right; right; rfl

theorem word_not_space {c : Char} (h : isWordChar c = true) : isJsSpace c = false := by
  simp [isWordChar] at h
  simp [isJsSpace]
  omega

theorem jsToLower_fix {c : Char} (h : okChar c) : jsToLower c = c := by
  have hn := okChar_toNat h
  unfold jsToLower
  rw [if_neg (by omega), if_neg (by omega)]

theorem jsToLower_not_upper (c : Char) :
    ¬(65 ≤ (jsToLower c).toNat ∧ (jsToLower c).toNat ≤ 90) := by
  unfold jsToLower
  by_cases h1 : 65 ≤ c.toNat ∧ c.toNat ≤ 90
  · rw [if_pos h1, char_toNat_ofNat_of_lt _ (by omega)]
    omega
  · rw [if_neg h1]
    by_cases h2 : (0xc0 ≤ c.toNat ∧ c.toNat ≤ 0xde) ∧ c.toNat ≠ 0xd7
    · rw [if_pos h2, char_toNat_ofNat_of_lt _ (by omega)]
      omega
    · rw [if_neg h2]
      omega

theorem lookup_eq_some_mem {t : List (Char × List Char)} {c : Char} {ds : List Char}
    (h : t.lookup c = some ds) : (c, ds) ∈ t := by
  induction t with
  | nil => simp [List.lookup] at h
  | cons p t ih =>
    rcases p with ⟨k, v⟩
    rw [List.lookup_cons] at h
    rcases hk : (c == k) with _ | _
    · rw [hk] at h
      exact List.mem_cons_of_mem _ (ih h)
    · rw [hk] at h
      have hck : c = k := beq_iff_eq.mp hk
      injection h with hv
      subst hck
      subst hv
      exact List.mem_cons_self _ _

theorem lookup_eq_none_of_keys {t : List (Char × List Char)} {c : Char}
    (h : ∀ p ∈ t, (c == p.1) = false) : t.lookup c = none := by
  induction t with
  | nil => rfl
  | cons p t ih =>
    rcases p with ⟨k, v⟩
    rw [List.lookup_cons]
    have hk := h (k, v) (List.mem_cons_self _ _)
    rw [hk]
    exact ih fun p hp => h p (List.mem_cons_of_mem _ hp)

theorem nfdChar_fix {c : Char} (h : c.toNat ≤ 122) : nfdChar c = [c] := by
  have hkeys : ∀ p ∈ nfdTable, 224 ≤ p.1.toNat := by decide
  have hnone : nfdTable.lookup c = none := by
    apply lookup_eq_none_of_keys
    intro p hp
    have hk := hkeys p hp
    apply beq_eq_false_iff_ne.mpr
    intro hc
    rw [hc] at h
    omega
  simp [nfdChar, hnone]

theorem nfdChar_not_upper {c d : Char} (hd : d ∈ nfdChar c)
    (hc : ¬(65 ≤ c.toNat ∧ c.toNat ≤ 90)) : ¬(65 ≤ d.toNat ∧ d.toNat ≤ 90) := by
  unfold nfdChar at hd
  cases h : nfdTable.lookup c with
  | none =>
    rw [h] at hd
    simp at hd
    subst hd
    exact hc
  | some ds =>
    rw [h] at hd
    simp at hd
    have hmem := lookup_eq_some_mem h
    have hall : ∀ p ∈ nfdTable, ∀ d ∈ p.2, ¬(65 ≤ d.toNat ∧ d.toNat ≤ 90) := by decide
    exact hall _ hmem d hd

/-! ### Lemmas about whitespace collapsing and trimming -/

theorem mem_collapseWs : ∀ (l : List Char) (c : Char), c ∈ collapseWs l →
    c = ' ' ∨ (c ∈ l ∧ isJsSpace c = false)
  | [], c, h => by simp [collapseWs] at h
  | [d], c, h => by
    unfold collapseWs at h
    by_cases hs : isJsSpace d = true
    · rw [if_pos hs] at h
      simp at h
      exact Or.inl h
    · rw [if_neg hs] at h
      simp at h
      subst h
      exact Or.inr ⟨by simp, by simpa using hs⟩
  | c0 :: d :: cs, c, h => by
    unfold collapseWs at h
    by_cases hb : (isJsSpace c0 && isJsSpace d) = true
    · rw [if_pos hb] at h
      rcases mem_collapseWs (d :: cs) c h with h1 | ⟨h2, h3⟩
      · exact Or.inl h1
      · exact Or.inr ⟨List.mem_cons_of_mem _ h2, h3⟩
    · rw [if_neg hb] at h
      rcases List.mem_cons.mp h with h1 | h1
      · by_cases hs : isJsSpace c0 = true
        · rw [if_pos hs] at h1
          exact Or.inl h1
        · rw [if_neg hs] at h1
          subst h1
          exact Or.inr ⟨List.mem_cons_self _ _, by simpa using hs⟩
      · rcases mem_collapseWs (d :: cs) c h1 with h2 | ⟨h3, h4⟩
        · exact Or.inl h2
        · exact Or.inr ⟨List.mem_cons_of_mem _ h3, h4⟩

theorem head?_collapseWs : ∀ (d : Char) (cs : List Char),
    (collapseWs (d :: cs)).head? = some (if isJsSpace d then ' ' else d)
  | d, [] => by simp [collapseWs]
  | d, e :: cs => by
    unfold collapseWs
    by_cases hb : (isJsSpace d && isJsSpace e) = true
    · rw [if_pos hb]
      rw [head?_collapseWs e cs]
      simp only [Bool.and_eq_true] at hb
      rw [if_pos hb.1, if_pos hb.2]
    · rw [if_neg hb]
      simp

theorem chain'_collapseWs : ∀ (l : List Char),
    (collapseWs l).Chain' (fun a b => ¬(isJsSpace a = true ∧ isJsSpace b = true))
  | [] => by simp [collapseWs]
  | [c] => by
    unfold collapseWs
    by_cases hs : isJsSpace c = true
    · rw [if_pos hs]; simp
    · rw [if_neg hs]; simp
  | c :: d :: cs => by
    unfold collapseWs
    by_cases hb : (isJsSpace c && isJsSpace d) = true
    · rw [if_pos hb]
      exact chain'_collapseWs (d :: cs)
    · rw [if_neg hb]
      rcases hrest : collapseWs (d :: cs) with _ | ⟨y, ys⟩
      · simp
      · rw [List.chain'_cons]
        constructor
        · have hh := head?_collapseWs d cs
          rw [hrest] at hh
          simp at hh
          intro hcon
          apply hb
          rcases hcon with ⟨h1, h2⟩
          have hc : isJsSpace c = true := by
            by_cases h : isJsSpace c = true
            · exact h
            · rw [if_neg h] at h1
              exact absurd h1 h
          have hdsp : isJsSpace d = true := by
            by_cases h : isJsSpace d = true
            · exact h
            · rw [hh, if_neg h] at h2
              exact absurd h2 h
          rw [hc, hdsp]
          rfl
        · have hch := chain'_collapseWs (d :: cs)
          rw [hrest] at hch
          exact hch

theorem collapseWs_fix : ∀ (l : List Char), (∀ c ∈ l, okChar c) →
    l.Chain' (fun a b => ¬(isJsSpace a = true ∧ isJsSpace b = true)) → collapseWs l = l
  | [], _, _ => rfl
  | [c], hok, _ => by
    unfold collapseWs
    rcases hok c (by simp) with ⟨hw, _⟩ | rfl
    · rw [if_neg (by simp [word_not_space hw])]
    · rw [if_pos (by decide)]
  | c :: d :: cs, hok, hch => by
    unfold collapseWs
    rw [List.chain'_cons] at hch
    rcases hch with ⟨hR, htail⟩
    rw [if_neg (by
      intro habs
      exact hR (by simpa [Bool.and_eq_true] using habs))]
    have hc : (if isJsSpace c then ' ' else c) = c := by
      by_cases hs : isJsSpace c = true
      · rcases hok c (by simp) with ⟨hw, _⟩ | rfl
        · rw [word_not_space hw] at hs
          exact absurd hs (by simp)
        · rw [if_pos hs]
      · rw [if_neg hs]
    rw [hc, collapseWs_fix (d :: cs) (fun x hx => hok x (List.mem_cons_of_mem _ hx)) htail]

theorem mem_dropTrailingWs : ∀ (l : List Char) (c : Char), c ∈ dropTrailingWs l → c ∈ l
  | [], c, h => by simp [dropTrailingWs] at h
  | d :: cs, c, h => by
    unfold dropTrailingWs at h
    by_cases he : (dropTrailingWs cs).isEmpty = true
    · rw [if_pos he] at h
      by_cases hs : isJsSpace d = true
      · rw [if_pos hs] at h
        simp at h
      · rw [if_neg hs] at h
        simp at h
        subst h
        exact List.mem_cons_self _ _
    · rw [if_neg he] at h
      rcases List.mem_cons.mp h with h1 | h1
      · subst h1
        exact List.mem_cons_self _ _
      · exact List.mem_cons_of_mem _ (mem_dropTrailingWs cs c h1)

theorem head?_dropTrailingWs : ∀ (l : List Char) (c : Char),
    (dropTrailingWs l).head? = some c → l.head? = some c
  | [], c, h => by simp [dropTrailingWs] at h
  | d :: cs, c, h => by
    unfold dropTrailingWs at h
    by_cases he : (dropTrailingWs cs).isEmpty = true
    · rw [if_pos he] at h
      by_cases hs : isJsSpace d = true
      · rw [if_pos hs] at h
        simp at h
      · rw [if_neg hs] at h
        simp at h
        simp [h]
    · rw [if_neg he] at h
      simp at h
      simp [h]

theorem getLast?_dropTrailingWs : ∀ (l : List Char) (c : Char),
    (dropTrailingWs l).getLast? = some c → isJsSpace c = false
  | [], c, h => by simp [dropTrailingWs] at h
  | d :: cs, c, h => by
    unfold dropTrailingWs at h
    by_cases he : (dropTrailingWs cs).isEmpty = true
    · rw [if_pos he] at h
      by_cases hs : isJsSpace d = true
      · rw [if_pos hs] at h
        simp at h
      · rw [if_neg hs] at h
        simp at h
        subst h
        simpa using hs
    · rw [if_neg he] at h
      rcases hr : dropTrailingWs cs with _ | ⟨y, ys⟩
      · rw [hr] at he
        simp at he
      · rw [hr] at h
        rw [List.getLast?_cons_cons] at h
        exact getLast?_dropTrailingWs cs c (by rw [hr]; exact h)

theorem chain'_dropTrailingWs (R : Char → Char → Prop) :
    ∀ (l : List Char), l.Chain' R → (dropTrailingWs l).Chain' R
  | [], h => by simp [dropTrailingWs]
  | d :: cs, h => by
    unfold dropTrailingWs
    by_cases he : (dropTrailingWs cs).isEmpty = true
    · rw [if_pos he]
      by_cases hs : isJsSpace d = true
      · rw [if_pos hs]
        simp
      · rw [if_neg hs]
        simp
    · rw [if_neg he]
      rcases hr : dropTrailingWs cs with _ | ⟨y, ys⟩
      · rw [hr] at he
        simp at he
      · rw [List.chain'_cons]
        constructor
        · have hy : cs.head? = some y := head?_dropTrailingWs cs y (by rw [hr]; rfl)
          rcases cs with _ | ⟨e, es⟩
          · simp at hy
          · simp at hy
            subst hy
            exact (List.chain'_cons.mp h).1
        · have hrec := chain'_dropTrailingWs R cs (List.Chain'.tail h)
          rw [hr] at hrec
          exact hrec

theorem dropTrailingWs_fix : ∀ (l : List Char),
    (∀ c, l.getLast? = some c → isJsSpace c = false) → dropTrailingWs l = l
  | [], _ => rfl
  | [d], h => by
    have hd := h d (by simp)
    simp [dropTrailingWs, hd]
  | d :: e :: es, h => by
    have hrec := dropTrailingWs_fix (e :: es) (fun c hc =>
      h c (by rw [List.getLast?_cons_cons]; exact hc))
    unfold dropTrailingWs
    rw [hrec]
    simp

theorem mem_dropWhileWs : ∀ (l : List Char) (c : Char), c ∈ l.dropWhile isJsSpace → c ∈ l
  | [], c, h => by simp at h
  | d :: cs, c, h => by
    rw [List.dropWhile_cons] at h
    by_cases hs : isJsSpace d = true
    · rw [if_pos hs] at h
      exact List.mem_cons_of_mem _ (mem_dropWhileWs cs c h)
    · rw [if_neg hs] at h
      exact h

theorem head?_dropWhileWs : ∀ (l : List Char) (c : Char),
    (l.dropWhile isJsSpace).head? = some c → isJsSpace c = false
  | [], c, h => by simp at h
  | d :: cs, c, h => by
    rw [List.dropWhile_cons] at h
    by_cases hs : isJsSpace d = true
    · rw [if_pos hs] at h
      exact head?_dropWhileWs cs c h
    · rw [if_neg hs] at h
      simp at h
      subst h
      simpa using hs

theorem chain'_dropWhileWs (R : Char → Char → Prop) :
    ∀ (l : List Char), l.Chain' R → (l.dropWhile isJsSpace).Chain' R
  | [], h => by simp
  | d :: cs, h => by
    rw [List.dropWhile_cons]
    by_cases hs : isJsSpace d = true
    · rw [if_pos hs]
      exact chain'_dropWhileWs R cs (List.Chain'.tail h)
    · rw [if_neg hs]
      exact h

theorem dropWhileWs_fix {l : List Char}
    (h : ∀ c, l.head? = some c → isJsSpace c = false) : l.dropWhile isJsSpace = l := by
  cases l with
  | nil => rfl
  | cons d cs =>
    rw [List.dropWhile_cons, if_neg (by simp [h d rfl])]

theorem flatMap_id_of {α : Type} (l : List α) (f : α → List α)
    (h : ∀ c ∈ l, f c = [c]) : l.flatMap f = l := by
  induction l with
  | nil => rfl
  | cons c cs ih =>
    rw [List.flatMap_cons, h c (List.mem_cons_self _ _),
      ih fun x hx => h x (List.mem_cons_of_mem _ hx)]
    rfl

/-! ### Canonical form of `normalize` output and idempotence -/

theorem normalizeList_canon (l : List Char) : CanonList (ProviderIanz56.normalizeList l) := by
  unfold ProviderIanz56.normalizeList jsTrimList
  refine ⟨?_, ?_, ?_, ?_⟩
  · intro c hc
    have h1 := mem_dropWhileWs _ c (mem_dropTrailingWs _ c hc)
    rcases mem_collapseWs _ c h1 with h3 | ⟨h3, h4⟩
    · exact Or.inr h3
    · rw [List.mem_filter] at h3
      rcases h3 with ⟨h5, h6⟩
      rw [List.mem_filter] at h5
      rcases h5 with ⟨h7, _⟩
      have hw : isWordChar c = true := by
        rcases (by simpa using h6 : isWordChar c = true ∨ isJsSpace c = true) with h | h
        · exact h
        · rw [h4] at h
          exact absurd h (by simp)
      rw [List.mem_flatMap] at h7
      rcases h7 with ⟨a, ha, hca⟩
      rw [List.mem_map] at ha
      rcases ha with ⟨a0, _, ha0⟩
      subst ha0
      exact Or.inl ⟨hw, fun hu => (nfdChar_not_upper hca (jsToLower_not_upper a0)) hu⟩
  · exact chain'_dropTrailingWs _ _ (chain'_dropWhileWs _ _ (chain'_collapseWs _))
  · intro c hc
    exact head?_dropWhileWs _ c (head?_dropTrailingWs _ c hc)
  · intro c hc
    exact getLast?_dropTrailingWs _ c hc

theorem normalizeList_fix {l : List Char} (h : CanonList l) :
    ProviderIanz56.normalizeList l = l := by
  rcases h with ⟨hok, hch, hhd, hlast⟩
  unfold ProviderIanz56.normalizeList jsTrimList
  have h1 : l.map jsToLower = l := by
    have hm := List.map_congr_left (l := l) (f := jsToLower) (g := id)
      fun c hc => jsToLower_fix (hok c hc)
    simpa using hm
  rw [h1]
  have h2 : l.flatMap nfdChar = l := by
    apply flatMap_id_of
    intro c hc
    rcases okChar_toNat (hok c hc) with h | h | h | h <;> exact nfdChar_fix (by omega)
  rw [h2]
  have h3 : l.filter (fun c => !isCombiningMark c) = l := by
    rw [List.filter_eq_self]
    intro c hc
    rcases okChar_toNat (hok c hc) with h | h | h | h <;> simp [isCombiningMark] <;> omega
  rw [h3]
  have h4 : l.filter (fun c => isWordChar c || isJsSpace c) = l := by
    rw [List.filter_eq_self]
    intro c hc
    rcases hok c hc with ⟨hw, _⟩ | rfl
    · simp [hw]
    · simp [isJsSpace]
  rw [h4]
  rw [collapseWs_fix l hok hch]
  rw [dropWhileWs_fix hhd]
  exact dropTrailingWs_fix l hlast

/-- C9: `normalize` is idempotent and case/diacritic-insensitive:
`normalize(normalize(s)) == normalize(s)` for every string, and
`normalize("Café") == normalize("CAFE")`. -/
theorem claim9_theorem :
    (∀ s : String,
      ProviderIanz56.normalize (ProviderIanz56.normalize s) = ProviderIanz56.normalize s) ∧
    ProviderIanz56.normalize "Café" = ProviderIanz56.normalize "CAFE" := by
  constructor
  · intro s
    show (⟨ProviderIanz56.normalizeList (ProviderIanz56.normalizeList s.data)⟩ : String) = _
    exact congrArg String.mk (normalizeList_fix (normalizeList_canon s.data))
  · decide

/-! ### C8: the title-fallback tier of findMatch -/

/-- C8: in `findMatch`'s title-fallback tier (consulted only when the exact
and partial tiers found nothing), an entry whose normalized artist is empty
matches on title equality or containment either way, while an entry whose
normalized artist is non-empty matches only on exact normalized title
equality, with no artist comparison; in particular the entry
`{artist: "", title: "Tanpa Cinta"}` matches the query title "Tanpa Cinta"
regardless of the query artist. -/
theorem claim8_theorem :
    (∀ (nt : String) (e : ProviderIanz56.IndexEntry),
      ProviderIanz56.normalize e.artist = "" →
      (ProviderIanz56.titleFallbackPred nt e = true ↔
        (ProviderIanz56.normalize e.title = nt ∨
         strIncludes (ProviderIanz56.normalize e.title) nt = true ∨
         strIncludes nt (ProviderIanz56.normalize e.title) = true))) ∧
    (∀ (nt : String) (e : ProviderIanz56.IndexEntry),
      ProviderIanz56.normalize e.artist ≠ "" →
      (ProviderIanz56.titleFallbackPred nt e = true ↔
        ProviderIanz56.normalize e.title = nt)) ∧
    (∀ (artist title : String) (index : List ProviderIanz56.IndexEntry),
      index.find? (ProviderIanz56.exactPred (ProviderIanz56.normalize artist)
        (ProviderIanz56.normalize title)) = none →
      index.find? (ProviderIanz56.partialPred (ProviderIanz56.normalize artist)
        (ProviderIanz56.normalize title)) = none →
      ProviderIanz56.findMatch artist title index =
        index.find? (ProviderIanz56.titleFallbackPred (ProviderIanz56.normalize title))) ∧
    (∀ artist : String,
      ProviderIanz56.findMatch artist "Tanpa Cinta"
          [⟨"", "Tanpa Cinta", "p.json"⟩] =
        some ⟨"", "Tanpa Cinta", "p.json"⟩) := by
  refine ⟨?_, ?_, ?_, ?_⟩
  · intro nt e h
    unfold ProviderIanz56.titleFallbackPred
    rw [h]
    rw [if_pos (show ("" : String).isEmpty = true from rfl)]
    simp [or_assoc]
  · intro nt e h
    unfold ProviderIanz56.titleFallbackPred
    rw [if_neg (by simpa [String.isEmpty_iff] using h)]
    simp
  · intro artist title index h1 h2
    unfold ProviderIanz56.findMatch
    rw [h1, h2]
  · intro artist
    unfold ProviderIanz56.findMatch
    by_cases h : ProviderIanz56.normalize artist = ""
    · rw [h]
      decide
    · have hb : (ProviderIanz56.normalize "" == ProviderIanz56.normalize artist) = false := by
        apply beq_eq_false_iff_ne.mpr
        intro hx
        exact h (hx.symm.trans (by decide))
      rw [List.find?_cons]
      have he : ProviderIanz56.exactPred (ProviderIanz56.normalize artist)
          (ProviderIanz56.normalize "Tanpa Cinta") ⟨"", "Tanpa Cinta", "p.json"⟩ = false := by
        unfold ProviderIanz56.exactPred
        rw [Bool.and_eq_false_iff]
        left
        simpa using hb
      rw [he]
      simp only [List.find?_nil]
      rw [List.find?_cons]
      have hp : ProviderIanz56.partialPred (ProviderIanz56.normalize artist)
          (ProviderIanz56.normalize "Tanpa Cinta") ⟨"", "Tanpa Cinta", "p.json"⟩ = false := by
        simp [ProviderIanz56.partialPred,
          show ProviderIanz56.normalize "" = "" from by decide,
          show ("" : String).isEmpty = true from rfl]
      rw [hp]
      simp only [List.find?_nil]
      decide

/-- Witness for C8: the characterizations applied at concrete entries. -/
theorem claim8_witness :
    (ProviderIanz56.titleFallbackPred "tanpa cinta" ⟨"", "Tanpa Cinta", "p"⟩ = true ↔
      (ProviderIanz56.normalize "Tanpa Cinta" = "tanpa cinta" ∨
       strIncludes (ProviderIanz56.normalize "Tanpa Cinta") "tanpa cinta" = true ∨
       strIncludes "tanpa cinta" (ProviderIanz56.normalize "Tanpa Cinta") = true)) ∧
    (ProviderIanz56.titleFallbackPred "x" ⟨"A", "Y", "p"⟩ = true ↔
      ProviderIanz56.normalize "Y" = "x") ∧
    ProviderIanz56.findMatch "Q" "Z"
        [⟨"B", "W", "p"⟩] = [(⟨"B", "W", "p"⟩ : ProviderIanz56.IndexEntry)].find?
        (ProviderIanz56.titleFallbackPred (ProviderIanz56.normalize "Z")) ∧
    ProviderIanz56.findMatch "anyone" "Tanpa Cinta" [⟨"", "Tanpa Cinta", "p.json"⟩] =
      some ⟨"", "Tanpa Cinta", "p.json"⟩ :=
  ⟨claim8_theorem.1 "tanpa cinta" ⟨"", "Tanpa Cinta", "p"⟩ (by decide),
   claim8_theorem.2.1 "x" ⟨"A", "Y", "p"⟩ (by decide),
   claim8_theorem.2.2.1 "Q" "Z" [⟨"B", "W", "p"⟩] (by decide) (by decide),
   claim8_theorem.2.2.2 "anyone"⟩

/-! ### C5: gap spacers in the Shape B word conversion -/

/-- C5: in `processWords` (Shape B, seconds in, milliseconds out), whenever a
word's start exceeds the running cursor by more than the 10 ms tolerance, a
spacer with empty text and duration equal to start minus cursor (in rounded
milliseconds) is emitted immediately before the word's own token; otherwise
the word's token comes first.  In particular the raw words "Hey" covering
0–300 ms and "you" covering 500–800 ms (0, 0.3, 0.5, 0.8 in the payload's
seconds) with line start 0 convert to
`[{word:"Hey",time:300},{word:"",time:200},{word:"you",time:300}]`. -/
theorem claim5_theorem :
    (∀ (currentTime : ℚ) (isBackground : Bool) (w : ProviderIanz56.BWord)
      (ws : List ProviderIanz56.BWord),
      ProviderIanz56.processWords (w :: ws) currentTime isBackground =
        (if w.«begin» > currentTime + 1/100 then
          [{ word := "", time := jsRound ((w.«begin» - currentTime) * 1000),
             isBackground := isBackground }]
         else []) ++
        { word := (if w.hasSpaceAfter && !ws.isEmpty then
              (if isBackground then ProviderIanz56.stripParens w.text else w.text) ++ " "
            else (if isBackground then ProviderIanz56.stripParens w.text else w.text)),
          time := jsRound ((w.«end» - w.«begin») * 1000), isBackground := isBackground } ::
          ProviderIanz56.processWords ws w.«end» isBackground) ∧
    ProviderIanz56.processWords
      [⟨"Hey", 0, 3/10, false, false⟩, ⟨"you", 1/2, 4/5, false, false⟩] 0 false =
      [⟨"Hey", 300, false⟩, ⟨"", 200, false⟩, ⟨"you", 300, false⟩] := by
  constructor
  · intro currentTime isBackground w ws
    rfl
  · simp [ProviderIanz56.processWords, jsRound]
    norm_num

/-! ### C6: background parenthesis stripping -/

/-- C6 counterexample: the Shape A converter does not strip parentheses from
background words — the background word "(ooh)" is emitted as "(ooh) " (with
the trailing space of an unset `part` flag), not as "ooh".  Only the Shape B
converter strips. -/
theorem claim6_counterexample :
    (ProviderApple.processWords [⟨"(ooh)", 0, 300, 300, false⟩] 0 true).map
      (·.word) = ["(ooh) "] ∧ ("(ooh) " : String) ≠ "ooh" := by
  constructor
  · decide
  · decide

/-- C6 amended: in the Shape B converter every background token is either a
spacer or carries the paren-stripped text of some raw word (possibly with the
trailing space); a background word "(ooh)" converts to text "ooh" there.  In
the Shape A converter, background tokens carry the raw text unmodified
(possibly with the trailing space), with no paren stripping. -/
theorem claim6_amended :
    (∀ (words : List ProviderIanz56.BWord) (currentTime : ℚ)
      (t : ProviderIanz56.BTok),
      t ∈ ProviderIanz56.processWords words currentTime true →
      t.word = "" ∨ ∃ w ∈ words, t.word = ProviderIanz56.stripParens w.text ∨
        t.word = ProviderIanz56.stripParens w.text ++ " ") ∧
    ProviderIanz56.processWords [⟨"(ooh)", 0, 1, false, true⟩] 0 true =
      [⟨"ooh", 1000, true⟩] ∧
    (∀ (words : List ProviderApple.AWord) (currentTime : Int)
      (t : ProviderApple.ATok),
      t ∈ ProviderApple.processWords words currentTime true →
      t.word = "" ∨ ∃ w ∈ words, t.word = w.text ∨ t.word = w.text ++ " ") := by
  refine ⟨?_, ?_, ?_⟩
  · intro words
    induction words with
    | nil =>
      intro currentTime t ht
      simp [ProviderIanz56.processWords] at ht
    | cons w ws ih =>
      intro currentTime t ht
      unfold ProviderIanz56.processWords at ht
      rcases List.mem_append.mp ht with h1 | h1
      · left
        by_cases hg : w.«begin» > currentTime + 1/100
        · rw [if_pos hg] at h1
          simp at h1
          rw [h1]
        · rw [if_neg hg] at h1
          simp at h1
      · rcases List.mem_cons.mp h1 with h2 | h2
        · subst h2
          right
          refine ⟨w, List.mem_cons_self _ _, ?_⟩
          by_cases hs : (w.hasSpaceAfter && !ws.isEmpty) = true
          · rw [if_pos hs]
            right
            rfl
          · rw [if_neg hs]
            left
            rfl
        · rcases ih w.«end» t h2 with h3 | ⟨w', hw', h4⟩
          · left
            exact h3
          · right
            exact ⟨w', List.mem_cons_of_mem _ hw', h4⟩
  · simp [ProviderIanz56.processWords, ProviderIanz56.stripParens, jsRound]
    norm_num
  · intro words
    induction words with
    | nil =>
      intro currentTime t ht
      simp [ProviderApple.processWords] at ht
    | cons w ws ih =>
      intro currentTime t ht
      unfold ProviderApple.processWords at ht
      rcases List.mem_append.mp ht with h1 | h1
      · left
        by_cases hg : w.timestamp > currentTime + 10
        · rw [if_pos hg] at h1
          simp at h1
          rw [h1]
        · rw [if_neg hg] at h1
          simp at h1
      · rcases List.mem_cons.mp h1 with h2 | h2
        · subst h2
          right
          refine ⟨w, List.mem_cons_self _ _, ?_⟩
          by_cases hs : (!w.part) = true
          · rw [if_pos hs]
            right
            rfl
          · rw [if_neg hs]
            left
            simp
        · rcases ih w.endtime t h2 with h3 | ⟨w', hw', h4⟩
          · left
            exact h3
          · right
            exact ⟨w', List.mem_cons_of_mem _ hw', h4⟩

/-- Witness for C6 amended: the membership characterizations applied to
concrete one-word runs. -/
theorem claim6_witness :
    ((⟨"ooh", 1000, true⟩ : ProviderIanz56.BTok).word = "" ∨
      ∃ w ∈ [(⟨"(ooh)", 0, 1, false, true⟩ : ProviderIanz56.BWord)],
        (⟨"ooh", 1000, true⟩ : ProviderIanz56.BTok).word =
          ProviderIanz56.stripParens w.text ∨
        (⟨"ooh", 1000, true⟩ : ProviderIanz56.BTok).word =
          ProviderIanz56.stripParens w.text ++ " ") ∧
    ((⟨"(ooh) ", 300, true, 0⟩ : ProviderApple.ATok).word = "" ∨
      ∃ w ∈ [(⟨"(ooh)", 0, 300, 300, false⟩ : ProviderApple.AWord)],
        (⟨"(ooh) ", 300, true, 0⟩ : ProviderApple.ATok).word = w.text ∨
        (⟨"(ooh) ", 300, true, 0⟩ : ProviderApple.ATok).word = w.text ++ " ") :=
  ⟨claim6_amended.1 [⟨"(ooh)", 0, 1, false, true⟩] 0 ⟨"ooh", 1000, true⟩
      (by rw [claim6_amended.2.1]; exact List.mem_cons_self _ _),
   claim6_amended.2.2 [⟨"(ooh)", 0, 300, 300, false⟩] 0 ⟨"(ooh) ", 300, true, 0⟩
      (by decide)⟩

/-! ### C2: the duration sum of a converted line -/

/-- Duration-sum bounds for the Shape A word conversion, by induction with the
cursor generalized: for temporally ordered words whose `duration` field equals
`endtime - timestamp`, the emitted durations sum to the last word's end minus
the cursor, short by the skipped gaps — each at most 10 ms, hence at most
10 ms per word in total. -/
theorem processWordsA_sum_bounds :
    ∀ (ws : List ProviderApple.AWord) (w : ProviderApple.AWord) (cur : Int)
      (isBackground : Bool),
      (∀ x ∈ w :: ws, x.timestamp ≤ x.endtime ∧ x.duration = x.endtime - x.timestamp) →
      (w :: ws).Chain' (fun a b => a.endtime ≤ b.timestamp) →
      cur ≤ w.timestamp →
      (ws.getLastD w).endtime - cur - 10 * (w :: ws).length ≤
        ((ProviderApple.processWords (w :: ws) cur isBackground).map (·.time)).sum ∧
      ((ProviderApple.processWords (w :: ws) cur isBackground).map (·.time)).sum ≤
        (ws.getLastD w).endtime - cur
  | [], w, cur, isBackground, hall, _, hcur => by
    rcases hall w (by simp) with ⟨h1, h2⟩
    simp only [ProviderApple.processWords]
    by_cases hgap : w.timestamp > cur + 10
    · rw [if_pos hgap]
      simp [List.getLastD]
      omega
    · rw [if_neg hgap]
      simp [List.getLastD]
      omega
  | w' :: ws', w, cur, isBackground, hall, hch, hcur => by
    rw [List.chain'_cons] at hch
    have ih := processWordsA_sum_bounds ws' w' w.endtime isBackground
      (fun x hx => hall x (List.mem_cons_of_mem _ hx)) hch.2 hch.1
    rcases hall w (by simp) with ⟨h1, h2⟩
    rw [List.getLastD_cons]
    unfold ProviderApple.processWords
    by_cases hgap : w.timestamp > cur + 10
    · rw [if_pos hgap]
      simp only [List.map_append, List.map_cons, List.map_nil, List.sum_append,
        List.sum_cons, List.sum_nil, List.nil_append, List.length_cons] at ih ⊢
      omega
    · rw [if_neg hgap]
      simp only [List.map_append, List.map_cons, List.map_nil, List.sum_append,
        List.sum_cons, List.sum_nil, List.nil_append, List.length_cons] at ih ⊢
      omega

/-- C2 counterexample: three Shape B words covering 0–1 s, 1.008–2 s and
2.008–3 s (each inter-word gap is 8 ms, inside the 10 ms tolerance, so no
spacers are emitted) sum to 2984 ms, while lineEnd − lineStart is 3000 ms:
the sub-tolerance gaps accumulate, so the total is off by 16 ms > 10 ms. -/
theorem claim2_counterexample :
    ((ProviderIanz56.processWords
      [⟨"a", 0, 1, false, false⟩, ⟨"b", 126/125, 2, false, false⟩,
       ⟨"c", 251/125, 3, false, false⟩] 0 false).map (·.time)).sum = 2984 ∧
    ¬((3000 : Int) - 2984 ≤ 10) := by
  constructor
  · simp [ProviderIanz56.processWords, jsRound]
    norm_num
  · decide

/-- C2 amended: for a temporally ordered raw word sequence (each word starts
no earlier than the cursor/previous end, durations equal end − start), the sum
of all emitted durations for the track equals lastWordEnd − lineStart minus
the skipped sub-tolerance gaps; each skipped gap is ≤ 10 ms, so the sum lies
within 10 ms *per word* of lastWordEnd − lineStart (not within 10 ms overall,
and not relative to a line `end` field beyond the last word). -/
theorem claim2_amended (isBackground : Bool) (lineStart : Int)
    (w : ProviderApple.AWord) (ws : List ProviderApple.AWord)
    (hdur : ∀ x ∈ w :: ws, x.timestamp ≤ x.endtime ∧ x.duration = x.endtime - x.timestamp)
    (horder : (w :: ws).Chain' (fun a b => a.endtime ≤ b.timestamp))
    (hstart : lineStart ≤ w.timestamp) :
    ((ws.getLastD w).endtime - lineStart) - 10 * (w :: ws).length ≤
      ((ProviderApple.processWords (w :: ws) lineStart isBackground).map (·.time)).sum ∧
    ((ProviderApple.processWords (w :: ws) lineStart isBackground).map (·.time)).sum ≤
      (ws.getLastD w).endtime - lineStart :=
  processWordsA_sum_bounds ws w lineStart isBackground hdur horder hstart

/-- Witness for C2 amended: a concrete two-word line with an in-tolerance gap;
the emitted sum 995 lies between 1000 − 20 and 1000. -/
theorem claim2_witness :
    (([(⟨"b", 505, 1000, 495, false⟩ : ProviderApple.AWord)].getLastD
        ⟨"a", 0, 500, 500, false⟩).endtime - 0) - 10 * 2 ≤
      ((ProviderApple.processWords
        [⟨"a", 0, 500, 500, false⟩, ⟨"b", 505, 1000, 495, false⟩] 0 false).map
          (·.time)).sum ∧
    ((ProviderApple.processWords
      [⟨"a", 0, 500, 500, false⟩, ⟨"b", 505, 1000, 495, false⟩] 0 false).map
        (·.time)).sum ≤
      ([(⟨"b", 505, 1000, 495, false⟩ : ProviderApple.AWord)].getLastD
        ⟨"a", 0, 500, 500, false⟩).endtime - 0 :=
  claim2_amended false 0 ⟨"a", 0, 500, 500, false⟩ [⟨"b", 505, 1000, 495, false⟩]
    (by decide) (List.chain'_cons.mpr ⟨by decide, List.chain'_singleton _⟩) (by decide)

/-! ### C3: seeding of the background cursor -/

/-- C3 counterexample: a line whose main vocals start at 0 s and whose
background vocals start at 5 s.  The background cursor is seeded with
`lineStartTime = min(mainStart, bgStart) = 0`, not with the background's own
first timestamp 5, so the converted background track begins with a leading
5000 ms spacer — contradicting the claim that no leading spacer is emitted
when the background starts after the main line. -/
theorem claim3_counterexample :
    (ProviderIanz56.mkKaraokeCue
      ⟨0, 1, "", "", [⟨"hi", 0, 1, false, false⟩], [⟨"(ooh)", 5, 6, false, true⟩]⟩).background =
      some [⟨"", 5000, true⟩, ⟨"ooh", 1000, true⟩] := by
  simp [ProviderIanz56.mkKaraokeCue, ProviderIanz56.processWords, ProviderIanz56.lineStartOf,
    ProviderIanz56.bgStartOf, ProviderIanz56.stripParens, jsRound]
  norm_num

/-- The Shape B conversion of a nonempty word run is nonempty. -/
theorem processWordsB_ne_nil (w : ProviderIanz56.BWord) (ws : List ProviderIanz56.BWord)
    (cur : ℚ) (isBackground : Bool) :
    ProviderIanz56.processWords (w :: ws) cur isBackground ≠ [] := by
  unfold ProviderIanz56.processWords
  by_cases hg : w.«begin» > cur + 1/100
  · rw [if_pos hg]
    simp
  · rw [if_neg hg]
    simp

/-- C3 amended: the background run of a line is converted with its cursor
seeded at `min(mainStart, background first timestamp)`.  When the background
starts at or before the main line, this is the background's own first
timestamp and no leading spacer is emitted (the first emitted token is the
first word itself); but when the background starts more than the 10 ms
tolerance after the main line start, the cursor is the main start and a
leading spacer covering the difference IS emitted. -/
theorem claim3_amended (line : ProviderIanz56.BLine) (w : ProviderIanz56.BWord)
    (bs : List ProviderIanz56.BWord) (hbg : line.backgroundVocal = w :: bs) :
    (ProviderIanz56.mkKaraokeCue line).background =
      some (ProviderIanz56.processWords (w :: bs) (min line.«begin» w.«begin») true) ∧
    (w.«begin» ≤ line.«begin» →
      ((ProviderIanz56.mkKaraokeCue line).background.getD []).head? =
        some ⟨(if w.hasSpaceAfter && !bs.isEmpty then
              ProviderIanz56.stripParens w.text ++ " "
            else ProviderIanz56.stripParens w.text),
          jsRound ((w.«end» - w.«begin») * 1000), true⟩) ∧
    (line.«begin» + 1/100 < w.«begin» →
      ((ProviderIanz56.mkKaraokeCue line).background.getD []).head? =
        some ⟨"", jsRound ((w.«begin» - line.«begin») * 1000), true⟩) := by
  have hmain : (ProviderIanz56.mkKaraokeCue line).background =
      some (ProviderIanz56.processWords (w :: bs) (min line.«begin» w.«begin») true) := by
    simp only [ProviderIanz56.mkKaraokeCue, ProviderIanz56.lineStartOf,
      ProviderIanz56.bgStartOf, hbg]
    rw [if_pos (by
      have := processWordsB_ne_nil w bs (min line.«begin» w.«begin») true
      exact List.length_pos.mpr this)]
  refine ⟨hmain, ?_, ?_⟩
  · intro hle
    rw [hmain]
    rw [min_eq_right hle]
    unfold ProviderIanz56.processWords
    rw [if_neg (by
      intro habs
      have : (0 : ℚ) < 1/100 := by norm_num
      linarith)]
    simp
  · intro hlt
    rw [hmain]
    rw [min_eq_left (by linarith)]
    unfold ProviderIanz56.processWords
    rw [if_pos (by linarith)]
    simp

/-- Witness for C3 amended: both branches of the dichotomy at concrete lines
(background starting with the main line; background starting 5 s late). -/
theorem claim3_witness :
    ((ProviderIanz56.mkKaraokeCue
        ⟨0, 1, "", "", [], [⟨"(ooh)", 0, 1, false, true⟩]⟩).background.getD []).head? =
      some ⟨ProviderIanz56.stripParens "(ooh)", jsRound (((1 : ℚ) - 0) * 1000), true⟩ ∧
    ((ProviderIanz56.mkKaraokeCue
        ⟨0, 1, "", "", [⟨"hi", 0, 1, false, false⟩],
         [⟨"(ooh)", 5, 6, false, true⟩]⟩).background.getD []).head? =
      some ⟨"", jsRound (((5 : ℚ) - 0) * 1000), true⟩ := by
  constructor
  · have h := (claim3_amended ⟨0, 1, "", "", [], [⟨"(ooh)", 0, 1, false, true⟩]⟩
      ⟨"(ooh)", 0, 1, false, true⟩ [] rfl).2.1 (by norm_num)
    simpa using h
  · have h := (claim3_amended
      ⟨0, 1, "", "", [⟨"hi", 0, 1, false, false⟩], [⟨"(ooh)", 5, 6, false, true⟩]⟩
      ⟨"(ooh)", 5, 6, false, true⟩ [] rfl).2.2 (by norm_num)
    simpa using h

/-! ### C7: ordering of the output sequences -/

/-- C7 counterexample: Shape A's `parseJSON` does not sort — two lines given
in reverse temporal order (timestamps 1000 then 0) come out in input order,
so the karaoke cue sequence is not non-decreasing in startTime. -/
theorem claim7_counterexample :
    ¬ ((ProviderApple.parseJSON
        ⟨none, some [⟨1000, 2000, [], []⟩, ⟨0, 500, [], []⟩]⟩).1.Chain'
      (fun a b => a.startTime ≤ b.startTime)) := by
  intro h
  have hk : (ProviderApple.parseJSON
      ⟨none, some [⟨1000, 2000, [], []⟩, ⟨0, 500, [], []⟩]⟩).1 =
      [⟨1000, 2000, [], false, none⟩, ⟨0, 500, [], false, none⟩] := by decide
  rw [hk] at h
  exact absurd (List.chain'_cons.mp h).1 (by decide)

/-- C7 amended: the Shape B conversion (`convertToKaraokeFormat`) does sort
both its karaoke and its synced sequence by non-decreasing startTime, for
every payload; the Shape A parser emits in input order instead. -/
theorem claim7_amended (lyricsJson : ProviderIanz56.ShapeB) :
    ((ProviderIanz56.convertToKaraokeFormat lyricsJson).1).Chain'
      (fun a b => a.startTime ≤ b.startTime) ∧
    ((ProviderIanz56.convertToKaraokeFormat lyricsJson).2).Chain'
      (fun a b => a.startTime ≤ b.startTime) := by
  constructor
  · haveI : IsTotal ProviderIanz56.BCue (fun a b => a.startTime ≤ b.startTime) :=
      ⟨fun a b => le_total _ _⟩
    haveI : IsTrans ProviderIanz56.BCue (fun a b => a.startTime ≤ b.startTime) :=
      ⟨fun a b c hab hbc => le_trans hab hbc⟩
    exact (List.sorted_insertionSort _ _).chain'
  · haveI : IsTotal ProviderIanz56.BSynced (fun a b => a.startTime ≤ b.startTime) :=
      ⟨fun a b => le_total _ _⟩
    haveI : IsTrans ProviderIanz56.BSynced (fun a b => a.startTime ≤ b.startTime) :=
      ⟨fun a b c hab hbc => le_trans hab hbc⟩
    exact (List.sorted_insertionSort _ _).chain'

/-! ### C1: the error/content invariant of findLyrics -/

/-- C1 counterexample: ianz56's `findLyrics` on a successfully matched and
fetched payload with zero lines returns error = null together with karaoke,
synced and unsynced all null — there is no EmptyLyrics path in this provider,
and the "error non-null iff all content null" invariant fails. -/
theorem claim1_counterexample :
    ProviderIanz56.findLyrics ⟨"uri", "t", "a"⟩ (.ok [⟨"a", "t", "p.json"⟩])
      (.ok ⟨[]⟩) =
    { uri := "uri", provider := "ianz56", karaoke := none, synced := none,
      unsynced := none, copyright := none, error := none } := by decide

/-- C1 amended: for the Apple provider the claimed invariant holds — error is
non-null iff karaoke, synced and unsynced are all null, and a payload whose
content parses to zero usable lines yields the "Empty lyrics" error with all
content null.  For the ianz56 provider only the forward direction holds:
error non-null implies all content null (a zero-line payload gives error null
with all content null, as the counterexample shows). -/
theorem claim1_amended :
    (∀ (info : ProviderIanz56.TrackInfo) (songRes : Option ProviderApple.SongInfo)
      (lyricsRes : ProviderApple.LyricsFetch),
      ((ProviderApple.findLyrics info songRes lyricsRes).error ≠ none ↔
        ((ProviderApple.findLyrics info songRes lyricsRes).karaoke = none ∧
         (ProviderApple.findLyrics info songRes lyricsRes).synced = none ∧
         (ProviderApple.findLyrics info songRes lyricsRes).unsynced = none))) ∧
    (∀ (info : ProviderIanz56.TrackInfo) (si : ProviderApple.SongInfo)
      (d : ProviderApple.LyricsData),
      si.appleID ≠ "" → d.content ≠ none →
      ProviderApple.parseJSON d = ([], [], []) →
      (ProviderApple.findLyrics info (some si) (.ok d)).error = some "Empty lyrics" ∧
      (ProviderApple.findLyrics info (some si) (.ok d)).karaoke = none ∧
      (ProviderApple.findLyrics info (some si) (.ok d)).synced = none ∧
      (ProviderApple.findLyrics info (some si) (.ok d)).unsynced = none) ∧
    (∀ (info : ProviderIanz56.TrackInfo) (indexRes : ProviderIanz56.IndexFetch)
      (payloadRes : ProviderIanz56.PayloadFetch),
      (ProviderIanz56.findLyrics info indexRes payloadRes).error ≠ none →
      (ProviderIanz56.findLyrics info indexRes payloadRes).karaoke = none ∧
      (ProviderIanz56.findLyrics info indexRes payloadRes).synced = none ∧
      (ProviderIanz56.findLyrics info indexRes payloadRes).unsynced = none) := by
  refine ⟨?_, ?_, ?_⟩
  · intro info songRes lyricsRes
    cases songRes with
    | none => simp [ProviderApple.findLyrics]
    | some si =>
      by_cases hid : (si.appleID == "") = true
      · simp [ProviderApple.findLyrics, hid]
      · rw [Bool.not_eq_true] at hid
        cases lyricsRes with
        | fail => simp [ProviderApple.findLyrics, hid]
        | malformed => simp [ProviderApple.findLyrics, hid]
        | ok d =>
          cases hcon : d.content with
          | none => simp [ProviderApple.findLyrics, hid, hcon]
          | some ls =>
            simp only [ProviderApple.findLyrics, hid, hcon, Bool.false_eq_true,
              if_false]
            by_cases hemp : (ProviderApple.parseJSON d).1.length = 0 ∧
                (ProviderApple.parseJSON d).2.1.length = 0 ∧
                (ProviderApple.parseJSON d).2.2.length = 0
            · rw [if_pos hemp]
              simp
            · rw [if_neg hemp]
              simp only [ne_eq, not_not]
              constructor
              · intro hx
                exact absurd trivial hx
              · rintro ⟨hk, hs, hu⟩
                exfalso
                apply hemp
                have h1 : (ProviderApple.parseJSON d).1.length = 0 := by
                  by_cases h : (ProviderApple.parseJSON d).1.length > 0
                  · rw [if_pos h] at hk
                    exact absurd hk (by simp)
                  · omega
                have h2 : (ProviderApple.parseJSON d).2.1.length = 0 := by
                  by_cases h : (ProviderApple.parseJSON d).2.1.length > 0
                  · rw [if_pos h] at hs
                    exact absurd hs (by simp)
                  · omega
                have h3 : (ProviderApple.parseJSON d).2.2.length = 0 := by
                  by_cases h : (ProviderApple.parseJSON d).2.2.length > 0
                  · rw [if_pos h] at hu
                    exact absurd hu (by simp)
                  · omega
                exact ⟨h1, h2, h3⟩
  · intro info si d hid hc hparse
    cases hcon : d.content with
    | none => exact absurd hcon hc
    | some ls =>
      have hid2 : (si.appleID == "") = false := beq_eq_false_iff_ne.mpr hid
      simp [ProviderApple.findLyrics, hid2, hcon, hparse]
  · intro info indexRes payloadRes herr
    cases indexRes with
    | fail => exact ⟨rfl, rfl, rfl⟩
    | ok index =>
      cases hm : ProviderIanz56.findMatch info.artist info.title index with
      | none => simp [ProviderIanz56.findLyrics, hm]
      | some m =>
        by_cases hjp : (m.jsonPath == "") = true
        · simp [ProviderIanz56.findLyrics, hm, hjp]
        · rw [Bool.not_eq_true] at hjp
          cases payloadRes with
          | fail => simp [ProviderIanz56.findLyrics, hm, hjp]
          | malformed => simp [ProviderIanz56.findLyrics, hm, hjp]
          | ok b =>
            exfalso
            apply herr
            simp [ProviderIanz56.findLyrics, hm, hjp]

/-- Witness for C1 amended: the empty-lyrics branch of the Apple provider and
the forward direction for ianz56 at concrete inputs. -/
theorem claim1_witness :
    ((ProviderApple.findLyrics ⟨"u", "t", "a"⟩ (some ⟨"s", "ar", "1", "al", "aw"⟩)
        (.ok ⟨none, some []⟩)).error = some "Empty lyrics" ∧
     (ProviderApple.findLyrics ⟨"u", "t", "a"⟩ (some ⟨"s", "ar", "1", "al", "aw"⟩)
        (.ok ⟨none, some []⟩)).karaoke = none ∧
     (ProviderApple.findLyrics ⟨"u", "t", "a"⟩ (some ⟨"s", "ar", "1", "al", "aw"⟩)
        (.ok ⟨none, some []⟩)).synced = none ∧
     (ProviderApple.findLyrics ⟨"u", "t", "a"⟩ (some ⟨"s", "ar", "1", "al", "aw"⟩)
        (.ok ⟨none, some []⟩)).unsynced = none) ∧
    ((ProviderIanz56.findLyrics ⟨"u", "t", "a"⟩ .fail .fail).karaoke = none ∧
     (ProviderIanz56.findLyrics ⟨"u", "t", "a"⟩ .fail .fail).synced = none ∧
     (ProviderIanz56.findLyrics ⟨"u", "t", "a"⟩ .fail .fail).unsynced = none) :=
  ⟨claim1_amended.2.1 ⟨"u", "t", "a"⟩ ⟨"s", "ar", "1", "al", "aw"⟩ ⟨none, some []⟩
      (by decide) (by decide) (by decide),
   claim1_amended.2.2 ⟨"u", "t", "a"⟩ .fail .fail (by decide)⟩

/-! ### C4: findLyrics turns every failure into a uniform error result -/

/-- C4: neither provider's `findLyrics` lets a failure escape: in the
embedding every outcome yields a fully formed result, and on each failure
path — index fetch failure, no match, missing jsonPath, payload fetch
failure, conversion failure (ianz56); no search hit, falsy id, lyrics fetch
failure, malformed or shapeless payload (Apple) — the result carries a
non-null error with karaoke, synced and unsynced all null and the uri,
provider and copyright fields filled in. -/
theorem claim4_theorem :
    (∀ (info : ProviderIanz56.TrackInfo) (indexRes : ProviderIanz56.IndexFetch)
      (payloadRes : ProviderIanz56.PayloadFetch),
      (indexRes = .fail ∨
       (∃ index, indexRes = .ok index ∧
          ProviderIanz56.findMatch info.artist info.title index = none) ∨
       (∃ index m, indexRes = .ok index ∧
          ProviderIanz56.findMatch info.artist info.title index = some m ∧
          m.jsonPath = "") ∨
       payloadRes = .fail ∨ payloadRes = .malformed) →
      (ProviderIanz56.findLyrics info indexRes payloadRes).error =
          some "Request error or lyrics not found" ∧
      (ProviderIanz56.findLyrics info indexRes payloadRes).karaoke = none ∧
      (ProviderIanz56.findLyrics info indexRes payloadRes).synced = none ∧
      (ProviderIanz56.findLyrics info indexRes payloadRes).unsynced = none ∧
      (ProviderIanz56.findLyrics info indexRes payloadRes).uri = info.uri ∧
      (ProviderIanz56.findLyrics info indexRes payloadRes).provider = "ianz56" ∧
      (ProviderIanz56.findLyrics info indexRes payloadRes).copyright = none) ∧
    (∀ (info : ProviderIanz56.TrackInfo) (songRes : Option ProviderApple.SongInfo)
      (lyricsRes : ProviderApple.LyricsFetch),
      (songRes = none ∨ (∃ si, songRes = some si ∧ si.appleID = "") ∨
       lyricsRes = .fail ∨ lyricsRes = .malformed ∨
       (∃ d, lyricsRes = .ok d ∧ d.content = none)) →
      (∃ e, (ProviderApple.findLyrics info songRes lyricsRes).error = some e) ∧
      (ProviderApple.findLyrics info songRes lyricsRes).karaoke = none ∧
      (ProviderApple.findLyrics info songRes lyricsRes).synced = none ∧
      (ProviderApple.findLyrics info songRes lyricsRes).unsynced = none ∧
      (ProviderApple.findLyrics info songRes lyricsRes).uri = info.uri ∧
      (ProviderApple.findLyrics info songRes lyricsRes).provider = "Apple Music" ∧
      (ProviderApple.findLyrics info songRes lyricsRes).copyright = none) := by
  constructor
  · intro info indexRes payloadRes hfail
    rcases hfail with h | ⟨index, hi, hm⟩ | ⟨index, m, hi, hm, hjp⟩ | h | h
    · subst h
      exact ⟨rfl, rfl, rfl, rfl, rfl, rfl, rfl⟩
    · subst hi
      simp [ProviderIanz56.findLyrics, hm]
    · subst hi
      have hjp2 : (m.jsonPath == "") = true := beq_iff_eq.mpr hjp
      simp [ProviderIanz56.findLyrics, hm, hjp2]
    · subst h
      cases indexRes with
      | fail => exact ⟨rfl, rfl, rfl, rfl, rfl, rfl, rfl⟩
      | ok index =>
        cases hm : ProviderIanz56.findMatch info.artist info.title index with
        | none => simp [ProviderIanz56.findLyrics, hm]
        | some m =>
          by_cases hjp : (m.jsonPath == "") = true
          · simp [ProviderIanz56.findLyrics, hm, hjp]
          · rw [Bool.not_eq_true] at hjp
            simp [ProviderIanz56.findLyrics, hm, hjp]
    · subst h
      cases indexRes with
      | fail => exact ⟨rfl, rfl, rfl, rfl, rfl, rfl, rfl⟩
      | ok index =>
        cases hm : ProviderIanz56.findMatch info.artist info.title index with
        | none => simp [ProviderIanz56.findLyrics, hm]
        | some m =>
          by_cases hjp : (m.jsonPath == "") = true
          · simp [ProviderIanz56.findLyrics, hm, hjp]
          · rw [Bool.not_eq_true] at hjp
            simp [ProviderIanz56.findLyrics, hm, hjp]
  · intro info songRes lyricsRes hfail
    rcases hfail with h | ⟨si, hs, hid⟩ | h | h | ⟨d, hl, hc⟩
    · subst h
      exact ⟨⟨"Song not found", rfl⟩, rfl, rfl, rfl, rfl, rfl, rfl⟩
    · subst hs
      have hid2 : (si.appleID == "") = true := beq_iff_eq.mpr hid
      simp [ProviderApple.findLyrics, hid2]
    · subst h
      cases songRes with
      | none => exact ⟨⟨"Song not found", rfl⟩, rfl, rfl, rfl, rfl, rfl, rfl⟩
      | some si =>
        by_cases hid : (si.appleID == "") = true
        · simp [ProviderApple.findLyrics, hid]
        · rw [Bool.not_eq_true] at hid
          simp [ProviderApple.findLyrics, hid]
    · subst h
      cases songRes with
      | none => exact ⟨⟨"Song not found", rfl⟩, rfl, rfl, rfl, rfl, rfl, rfl⟩
      | some si =>
        by_cases hid : (si.appleID == "") = true
        · simp [ProviderApple.findLyrics, hid]
        · rw [Bool.not_eq_true] at hid
          simp [ProviderApple.findLyrics, hid]
    · subst hl
      cases songRes with
      | none => exact ⟨⟨"Song not found", rfl⟩, rfl, rfl, rfl, rfl, rfl, rfl⟩
      | some si =>
        by_cases hid : (si.appleID == "") = true
        · simp [ProviderApple.findLyrics, hid]
        · rw [Bool.not_eq_true] at hid
          simp [ProviderApple.findLyrics, hid, hc]

/-- Witness for C4: one ianz56 failure path and one Apple failure path at
concrete inputs. -/
theorem claim4_witness :
    ((ProviderIanz56.findLyrics ⟨"u", "t", "a"⟩ .fail .fail).error =
        some "Request error or lyrics not found" ∧
     (ProviderIanz56.findLyrics ⟨"u", "t", "a"⟩ .fail .fail).karaoke = none ∧
     (ProviderIanz56.findLyrics ⟨"u", "t", "a"⟩ .fail .fail).synced = none ∧
     (ProviderIanz56.findLyrics ⟨"u", "t", "a"⟩ .fail .fail).unsynced = none ∧
     (ProviderIanz56.findLyrics ⟨"u", "t", "a"⟩ .fail .fail).uri = "u" ∧
     (ProviderIanz56.findLyrics ⟨"u", "t", "a"⟩ .fail .fail).provider = "ianz56" ∧
     (ProviderIanz56.findLyrics ⟨"u", "t", "a"⟩ .fail .fail).copyright = none) ∧
    ((∃ e, (ProviderApple.findLyrics ⟨"u", "t", "a"⟩ none .fail).error = some e) ∧
     (ProviderApple.findLyrics ⟨"u", "t", "a"⟩ none .fail).karaoke = none ∧
     (ProviderApple.findLyrics ⟨"u", "t", "a"⟩ none .fail).synced = none ∧
     (ProviderApple.findLyrics ⟨"u", "t", "a"⟩ none .fail).unsynced = none ∧
     (ProviderApple.findLyrics ⟨"u", "t", "a"⟩ none .fail).uri = "u" ∧
     (ProviderApple.findLyrics ⟨"u", "t", "a"⟩ none .fail).provider = "Apple Music" ∧
     (ProviderApple.findLyrics ⟨"u", "t", "a"⟩ none .fail).copyright = none) :=
  ⟨claim4_theorem.1 ⟨"u", "t", "a"⟩ .fail .fail (Or.inl rfl),
   claim4_theorem.2 ⟨"u", "t", "a"⟩ none .fail (Or.inl rfl)⟩

/-! ### C10: type "None" payloads keep only the unsynced sequence -/

theorem str_append_ne_empty_left {s t : String} (h : s ≠ "") : s ++ t ≠ "" := by
  rcases s with ⟨sd⟩
  rcases t with ⟨td⟩
  intro he
  apply h
  have h2 : sd ++ td = [] := congrArg String.data he
  have h3 : sd = [] := (List.append_eq_nil.mp h2).1
  rw [h3]

theorem valTextOf_ne_empty {l : ProviderApple.ALine}
    (h : ProviderApple.joinedText l.text ≠ "") : ProviderApple.valTextOf l ≠ "" := by
  unfold ProviderApple.valTextOf
  exact str_append_ne_empty_left h

theorem filterMap_unsyncedOf (ls : List ProviderApple.ALine)
    (h : ∀ l ∈ ls, ProviderApple.valTextOf l ≠ "") :
    ls.filterMap (fun line =>
      if ProviderApple.valTextOf line ≠ "" then
        some (⟨ProviderApple.valTextOf line⟩ : ProviderApple.AUnsynced) else none) =
    ls.map (fun l => ⟨ProviderApple.valTextOf l⟩) := by
  induction ls with
  | nil => rfl
  | cons l ls ih =>
    have hl := h l (List.mem_cons_self _ _)
    rw [List.filterMap_cons]
    have hf : (if ProviderApple.valTextOf l ≠ "" then
        some (⟨ProviderApple.valTextOf l⟩ : ProviderApple.AUnsynced) else none) =
        some ⟨ProviderApple.valTextOf l⟩ := by
      rw [if_pos hl]
    rw [hf, List.map_cons, ih fun x hx => h x (List.mem_cons_of_mem _ hx)]

/-- C10: a Shape A payload whose `type` is the string "None" and whose lines
all carry non-empty word text is parsed with every line excluded from the
karaoke and synced sequences but contributing its combined plain text to the
unsynced sequence, and `findLyrics` then returns karaoke = null, synced =
null, unsynced non-null and error = null. -/
theorem claim10_theorem (info : ProviderIanz56.TrackInfo) (si : ProviderApple.SongInfo)
    (d : ProviderApple.LyricsData) (ls : List ProviderApple.ALine)
    (hid : si.appleID ≠ "") (htype : d.type = some "None")
    (hcontent : d.content = some ls) (hne : ls ≠ [])
    (htext : ∀ l ∈ ls, ProviderApple.joinedText l.text ≠ "") :
    ProviderApple.parseJSON d =
      ([], [], ls.map (fun l => ⟨ProviderApple.valTextOf l⟩)) ∧
    (ProviderApple.findLyrics info (some si) (.ok d)).karaoke = none ∧
    (ProviderApple.findLyrics info (some si) (.ok d)).synced = none ∧
    (ProviderApple.findLyrics info (some si) (.ok d)).unsynced =
      some (Sum.inl (ls.map (fun l => ⟨ProviderApple.valTextOf l⟩))) ∧
    (ProviderApple.findLyrics info (some si) (.ok d)).error = none := by
  have hparse : ProviderApple.parseJSON d =
      ([], [], ls.map (fun l => ⟨ProviderApple.valTextOf l⟩)) := by
    simp only [ProviderApple.parseJSON, hcontent, htype]
    rw [if_neg (by simp), if_neg (by simp)]
    rw [filterMap_unsyncedOf ls (fun l hl => valTextOf_ne_empty (htext l hl))]
  have hid2 : (si.appleID == "") = false := beq_eq_false_iff_ne.mpr hid
  have hfl : ProviderApple.findLyrics info (some si) (.ok d) =
      { uri := info.uri, provider := "Apple Music", karaoke := none, synced := none,
        unsynced := some (Sum.inl (ls.map (fun l => ⟨ProviderApple.valTextOf l⟩))),
        copyright := none, error := none } := by
    simp only [ProviderApple.findLyrics, hid2, hcontent, hparse]
    simp [hne, List.length_pos.mpr hne]
  exact ⟨hparse, by rw [hfl], by rw [hfl], by rw [hfl], by rw [hfl]⟩

/-- Witness for C10: a one-line type-"None" payload carrying the word "la". -/
theorem claim10_witness :
    ProviderApple.parseJSON ⟨some "None", some [⟨0, 500, [⟨"la", 0, 500, 500, false⟩], []⟩]⟩ =
      ([], [], [⟨0, 500, [⟨"la", 0, 500, 500, false⟩], []⟩].map
        (fun l => ⟨ProviderApple.valTextOf l⟩)) ∧
    (ProviderApple.findLyrics ⟨"u", "t", "a"⟩ (some ⟨"s", "ar", "1", "al", "aw"⟩)
      (.ok ⟨some "None", some [⟨0, 500, [⟨"la", 0, 500, 500, false⟩], []⟩]⟩)).karaoke =
        none ∧
    (ProviderApple.findLyrics ⟨"u", "t", "a"⟩ (some ⟨"s", "ar", "1", "al", "aw"⟩)
      (.ok ⟨some "None", some [⟨0, 500, [⟨"la", 0, 500, 500, false⟩], []⟩]⟩)).synced =
        none ∧
    (ProviderApple.findLyrics ⟨"u", "t", "a"⟩ (some ⟨"s", "ar", "1", "al", "aw"⟩)
      (.ok ⟨some "None", some [⟨0, 500, [⟨"la", 0, 500, 500, false⟩], []⟩]⟩)).unsynced =
        some (Sum.inl ([⟨0, 500, [⟨"la", 0, 500, 500, false⟩], []⟩].map
          (fun l => ⟨ProviderApple.valTextOf l⟩))) ∧
    (ProviderApple.findLyrics ⟨"u", "t", "a"⟩ (some ⟨"s", "ar", "1", "al", "aw"⟩)
      (.ok ⟨some "None", some [⟨0, 500, [⟨"la", 0, 500, 500, false⟩], []⟩]⟩)).error =
        none :=
  claim10_theorem ⟨"u", "t", "a"⟩ ⟨"s", "ar", "1", "al", "aw"⟩
    ⟨some "None", some [⟨0, 500, [⟨"la", 0, 500, 500, false⟩], []⟩]⟩
    [⟨0, 500, [⟨"la", 0, 500, 500, false⟩], []⟩]
    (by decide) rfl rfl (by decide) (by decide)
